import Mathlib

/-!
# Verification of the native crypto module shim

A shallow embedding of `src/native/crypto/main.cpp`: the N-API module
registration (`Initialize`), the diagnostic accessor (`GetModuleInfo`),
and — modelled from the specification, since their bodies are linked from
an external library and are not part of the visible sources — the
cryptographic core behind the exported `aesEncrypt` / `aesDecrypt` /
`sha256` entry points (AES-GCM authenticated encryption and SHA-256
one-shot / streaming hashing).

N-API objects are embedded as association lists from property names to
values; `Object::Set` replaces an existing property or appends a new one,
and property lookup returns the first binding. Platform / architecture
conditional compilation is embedded as a record of the preprocessor flags
the source tests.
-/

namespace CryptoShim

/-- The four forward-declared native wrapper functions that the module
registers (`AesEncrypt`, `AesDecrypt`, `Sha256Hash`, `GetModuleInfo`). -/
inductive NativeFn where
  | aesEncrypt
  | aesDecrypt
  | sha256Hash
  | getModuleInfo
deriving DecidableEq, Repr

/-- A N-API value as far as this module manipulates them: strings,
registered native functions, and opaque pre-existing values (anything a
host put on the exports object before `Initialize` ran). -/
inductive NapiValue where
  | str (s : String)
  | func (f : NativeFn)
  | ext (n : Nat)
deriving DecidableEq, Repr

/-- A N-API object: an association list of named properties. -/
abbrev NapiObject : Type := List (String × NapiValue)

/-- `Napi::Object::Set`: overwrite the property `key` if present,
otherwise append it. -/
def setProp (obj : NapiObject) (key : String) (v : NapiValue) : NapiObject :=
  match obj with
  | [] => [(key, v)]
  | (k, w) :: rest =>
      if k = key then (k, v) :: rest else (k, w) :: setProp rest key v

/-- `Napi::Object::Get` (as observable content): the first binding of
`key`, if any. -/
def getProp (obj : NapiObject) (key : String) : Option NapiValue :=
  match obj with
  | [] => none
  | (k, w) :: rest => if k = key then some w else getProp rest key

/-- The preprocessor state the source file tests (`#ifdef _WIN32`,
`__APPLE__`, `__linux__`, `_M_X64`, `_M_IX86`, `__x86_64__`,
`__aarch64__`) together with the `__DATE__` / `__TIME__` expansions:
everything `GetModuleInfo` reads is fixed at build time. -/
structure BuildConfig where
  win32 : Bool
  apple : Bool
  linuxOS : Bool
  msvcX64 : Bool
  msvcIX86 : Bool
  gccX8664 : Bool
  aarch64 : Bool
  buildDate : String
  buildTime : String

/-- The `#ifdef _WIN32 / __APPLE__ / __linux__ / #else` chain selecting
the `platform` string. -/
def platformString (cfg : BuildConfig) : String :=
  if cfg.win32 then "win32"
  else if cfg.apple then "darwin"
  else if cfg.linuxOS then "linux"
  else "unknown"

/-- The `#ifdef _M_X64 / _M_IX86 / __x86_64__ / __aarch64__ / #else`
chain selecting the `arch` string. -/
def archString (cfg : BuildConfig) : String :=
  if cfg.msvcX64 then "x64"
  else if cfg.msvcIX86 then "ia32"
  else if cfg.gccX8664 then "x64"
  else if cfg.aarch64 then "arm64"
  else "unknown"

/-- The `#ifdef _WIN32` chain selecting the `symbolVisibility` string. -/
def visibilityString (cfg : BuildConfig) : String :=
  if cfg.win32 then "dllexport" else "default"

/-- `GetModuleInfo`: builds a fresh object and sets its seven fields in
source order. The callback arguments `info` are never read (the source
only extracts `env` from them). -/
def GetModuleInfo (cfg : BuildConfig) (_info : List NapiValue) : NapiObject :=
  let result : NapiObject := []
  let result := setProp result "name" (.str "web3_crypto_native")
  let result := setProp result "version" (.str "1.0.0")
  let result := setProp result "platform" (.str (platformString cfg))
  let result := setProp result "arch" (.str (archString cfg))
  let result := setProp result "buildDate" (.str cfg.buildDate)
  let result := setProp result "buildTime" (.str cfg.buildTime)
  let result := setProp result "symbolVisibility" (.str (visibilityString cfg))
  result

/-- `Initialize`: registers the four wrapper functions on the exports
object it receives and returns that object. -/
def Initialize (exports : NapiObject) : NapiObject :=
  let exports := setProp exports "aesEncrypt" (.func .aesEncrypt)
  let exports := setProp exports "aesDecrypt" (.func .aesDecrypt)
  let exports := setProp exports "sha256" (.func .sha256Hash)
  let exports := setProp exports "getModuleInfo" (.func .getModuleInfo)
  exports

/-! ## Association-list lemmas -/

theorem getProp_setProp (obj : NapiObject) (key k : String) (v : NapiValue) :
    getProp (setProp obj key v) k =
      if k = key then some v else getProp obj k := by
  induction obj with
  | nil =>
      by_cases hk : k = key
      · simp [setProp, getProp, hk]
      · simp [setProp, getProp, hk, Ne.symm hk]
  | cons p rest ih =>
      obtain ⟨pk, pv⟩ := p
      by_cases hpk : pk = key
      · subst hpk
        by_cases hk : k = pk
        · subst hk
          simp [setProp, getProp]
        · simp [setProp, getProp, hk, Ne.symm hk]
      · by_cases hk : k = pk
        · subst hk
          simp [setProp, getProp, hpk, Ne.symm hpk]
        · simp [setProp, getProp, hpk, hk, Ne.symm hk, ih]

/-- `GetModuleInfo` in normal form: seven properties, set in source
order on a fresh object, so the association list is literal. -/
theorem GetModuleInfo_eq (cfg : BuildConfig) (info : List NapiValue) :
    GetModuleInfo cfg info =
      [("name", .str "web3_crypto_native"),
       ("version", .str "1.0.0"),
       ("platform", .str (platformString cfg)),
       ("arch", .str (archString cfg)),
       ("buildDate", .str cfg.buildDate),
       ("buildTime", .str cfg.buildTime),
       ("symbolVisibility", .str (visibilityString cfg))] := rfl

theorem platformString_mem (cfg : BuildConfig) :
    platformString cfg ∈ ["win32", "darwin", "linux", "unknown"] := by
  unfold platformString
  split_ifs <;> simp

theorem archString_mem (cfg : BuildConfig) :
    archString cfg ∈ ["x64", "ia32", "arm64", "unknown"] := by
  unfold archString
  split_ifs <;> simp

/-! ## The cryptographic core

The bodies of `AesEncrypt`, `AesDecrypt` and `Sha256Hash` are only
forward-declared in the visible sources and linked from an external
library; the definitions below are modelled from the specification
(§4.2–§4.5): SHA-256 with one-shot and streaming interfaces, and
AES-GCM authenticated encryption with 12-byte nonces and 16-byte tags.
Bytes are naturals below 256, 32-bit words are naturals reduced mod
`2 ^ 32` where overflow matters. -/

/-- Big-endian value of a byte list. -/
def bytesToNatBE (bs : List Nat) : Nat :=
  bs.foldl (fun acc b => acc * 256 + b) 0

/-- The `len`-byte big-endian encoding of `n` (truncating above). -/
def natToBytesBE (len n : Nat) : List Nat :=
  (List.range len).map fun i => (n >>> (8 * (len - 1 - i))) % 256

/-- Modelled from the spec: constant-time equality on byte strings
(§4.1) — fold the OR of the byte XORs, no short-circuit on the first
mismatching byte. -/
def ctEq (a b : List Nat) : Bool :=
  (a.length == b.length) && ((List.zipWith Nat.xor a b).foldl Nat.lor 0 == 0)

/-- 32-bit right rotation. -/
def rotr (n x : Nat) : Nat := ((x >>> n) ||| (x <<< (32 - n))) % 4294967296

/-- Modelled from the spec: the 64 SHA-256 round constants (§4.2). -/
def k256 : List Nat :=
  [1116352408, 1899447441, 3049323471, 3921009573, 961987163, 1508970993,
   2453635748, 2870763221, 3624381080, 310598401, 607225278, 1426881987,
   1925078388, 2162078206, 2614888103, 3248222580, 3835390401, 4022224774,
   264347078, 604807628, 770255983, 1249150122, 1555081692, 1996064986,
   2554220882, 2821834349, 2952996808, 3210313671, 3336571891, 3584528711,
   113926993, 338241895, 666307205, 773529912, 1294757372, 1396182291,
   1695183700, 1986661051, 2177026350, 2456956037, 2730485921, 2820302411,
   3259730800, 3345764771, 3516065817, 3600352804, 4094571909, 275423344,
   430227734, 506948616, 659060556, 883997877, 958139571, 1322822218,
   1537002063, 1747873779, 1955562222, 2024104815, 2227730452, 2361852424,
   2428436474, 2756734187, 3204031479, 3329325298]

/-- Modelled from the spec: the SHA-256 initial hash values (§4.2). -/
def shaIV : List Nat :=
  [1779033703, 3144134277, 1013904242, 2773480762,
   1359893119, 2600822924, 528734635, 1541459225]

/-- The 64-word message schedule of one 512-bit block. -/
def msgSchedule (block : List Nat) : List Nat :=
  (List.range 64).foldl
    (fun w i =>
      if i < 16 then w ++ [bytesToNatBE ((block.drop (4 * i)).take 4)]
      else
        let s0 := rotr 7 (w.getD (i - 15) 0) ^^^ rotr 18 (w.getD (i - 15) 0)
                    ^^^ (w.getD (i - 15) 0 >>> 3)
        let s1 := rotr 17 (w.getD (i - 2) 0) ^^^ rotr 19 (w.getD (i - 2) 0)
                    ^^^ (w.getD (i - 2) 0 >>> 10)
        w ++ [(s1 + w.getD (i - 7) 0 + s0 + w.getD (i - 16) 0) % 4294967296])
    []

/-- One SHA-256 round on the eight working variables. -/
def shaRound (s : List Nat) (ki wi : Nat) : List Nat :=
  let a := s.getD 0 0
  let b := s.getD 1 0
  let c := s.getD 2 0
  let d := s.getD 3 0
  let e := s.getD 4 0
  let f := s.getD 5 0
  let g := s.getD 6 0
  let h := s.getD 7 0
  let bigS1 := rotr 6 e ^^^ rotr 11 e ^^^ rotr 25 e
  let ch := (e &&& f) ^^^ ((e ^^^ 4294967295) &&& g)
  let t1 := (h + bigS1 + ch + ki + wi) % 4294967296
  let bigS0 := rotr 2 a ^^^ rotr 13 a ^^^ rotr 22 a
  let maj := (a &&& b) ^^^ (a &&& c) ^^^ (b &&& c)
  let t2 := (bigS0 + maj) % 4294967296
  [(t1 + t2) % 4294967296, a, b, c, (d + t1) % 4294967296, e, f, g]

/-- Modelled from the spec: the SHA-256 compression function — 64
rounds over one 512-bit block, then addition into the running state
(§4.2). -/
def compress (h : List Nat) (block : List Nat) : List Nat :=
  let w := msgSchedule block
  let s := (List.range 64).foldl
    (fun s i => shaRound s (k256.getD i 0) (w.getD i 0)) h
  (List.range 8).map fun i => (h.getD i 0 + s.getD i 0) % 4294967296

/-- Absorb one byte into a (running state, block buffer) pair,
compressing as soon as the buffer holds a complete 64-byte block. -/
def absorbByte (s : List Nat × List Nat) (b : Nat) : List Nat × List Nat :=
  if (s.2 ++ [b]).length = 64 then (compress s.1 (s.2 ++ [b]), [])
  else (s.1, s.2 ++ [b])

/-- Consume every complete 64-byte block of `l` into the running state
`h`; return the new state and the remaining (< 64 byte) tail. -/
def consume (h : List Nat) (l : List Nat) : List Nat × List Nat :=
  l.foldl absorbByte (h, [])

/-- Modelled from the spec: Merkle–Damgård padding — a `1` bit, zero
bits, and the 64-bit big-endian bit length, to a multiple of 512 bits
(§4.2). -/
def padTail (len : Nat) : List Nat :=
  0x80 :: List.replicate ((119 - len % 64) % 64) 0 ++ natToBytesBE 8 (8 * len)

/-- Big-endian byte serialization of the eight state words. -/
def wordsToBytesBE (ws : List Nat) : List Nat :=
  (ws.map (natToBytesBE 4)).flatten

/-- Modelled from the spec: `hashOneShot(data)` — pad and compress all
blocks from the initial hash values (§4.2). -/
def hashOneShot (data : List Nat) : List Nat :=
  wordsToBytesBE (consume shaIV (data ++ padTail data.length)).1

/-- Modelled from the spec: the streaming `HashState` — 512-bit block
buffer, 256-bit running state, length counter (§3). -/
structure HashState where
  hs : List Nat
  buf : List Nat
  len : Nat
deriving DecidableEq, Repr

/-- Modelled from the spec: `newStream()` (§4.2). -/
def newStream : HashState := ⟨shaIV, [], 0⟩

/-- Modelled from the spec: `update(state, chunk)` — absorb the chunk,
compressing each complete 64-byte block, buffering the rest (§4.2). -/
def update (s : HashState) (chunk : List Nat) : HashState :=
  let hr := consume s.hs (s.buf ++ chunk)
  ⟨hr.1, hr.2, s.len + chunk.length⟩

/-- Modelled from the spec: `finalize(state)` — pad the buffered tail
with the total length and produce the digest (§4.2). -/
def finalize (s : HashState) : List Nat :=
  wordsToBytesBE (consume s.hs (s.buf ++ padTail s.len)).1

/-- The exported `sha256` entry point: one-shot hashing. -/
def sha256 (data : List Nat) : List Nat := hashOneShot data

/-! ## SHA-256 streaming/one-shot agreement -/

theorem foldl_absorb_small (r : List Nat) :
    ∀ h buf : List Nat, buf.length + r.length < 64 →
      List.foldl absorbByte (h, buf) r = (h, buf ++ r) := by
  induction r with
  | nil => intro h buf _; simp
  | cons b r ih =>
      intro h buf hlen
      have hne : ¬((buf ++ [b]).length = 64) := by
        simp only [List.length_append, List.length_cons, List.length_nil] at hlen ⊢
        omega
      rw [List.foldl_cons]
      have hstep : absorbByte (h, buf) b = (h, buf ++ [b]) := by
        simp only [absorbByte, hne, if_false]
      rw [hstep, ih h (buf ++ [b])
        (by simp only [List.length_append, List.length_cons, List.length_nil] at hlen ⊢; omega)]
      simp

theorem foldl_absorb_snd_lt (l : List Nat) :
    ∀ s : List Nat × List Nat, s.2.length < 64 →
      (List.foldl absorbByte s l).2.length < 64 := by
  induction l with
  | nil => intro s hs; simpa
  | cons b l ih =>
      intro s hs
      rw [List.foldl_cons]
      apply ih
      by_cases h64 : (s.2 ++ [b]).length = 64
      · simp [absorbByte, h64]
      · simp only [absorbByte, h64, if_false]
        simp only [List.length_append, List.length_cons, List.length_nil] at h64 ⊢
        omega

theorem consume_snd_lt (h l : List Nat) : (consume h l).2.length < 64 :=
  foldl_absorb_snd_lt l (h, []) (by simp)

theorem consume_append (h a b : List Nat) :
    consume h (a ++ b) = consume (consume h a).1 ((consume h a).2 ++ b) := by
  unfold consume
  rw [List.foldl_append, List.foldl_append,
    foldl_absorb_small ((a.foldl absorbByte (h, [])).2)
      (a.foldl absorbByte (h, [])).1 []
      (by simpa using consume_snd_lt h a)]
  simp

theorem update_consume (all c : List Nat) :
    update ⟨(consume shaIV all).1, (consume shaIV all).2, all.length⟩ c
      = ⟨(consume shaIV (all ++ c)).1, (consume shaIV (all ++ c)).2,
         (all ++ c).length⟩ := by
  simp [update, consume_append shaIV all c]

theorem foldl_update_eq (chunks : List (List Nat)) (all : List Nat) :
    List.foldl update
        ⟨(consume shaIV all).1, (consume shaIV all).2, all.length⟩ chunks
      = ⟨(consume shaIV (all ++ chunks.flatten)).1,
         (consume shaIV (all ++ chunks.flatten)).2,
         (all ++ chunks.flatten).length⟩ := by
  induction chunks generalizing all with
  | nil => simp
  | cons c cs ih =>
      rw [List.foldl_cons, update_consume, ih (all ++ c)]
      simp


/-- Modelled from the spec: the error taxonomy of the facade (§7). -/
inductive CryptoError where
  | invalidKeyLength
  | invalidNonceLength
  | invalidTagLength
  | authenticationFailed
deriving DecidableEq, Repr

/-- Modelled from the spec: the AES substitution box (§4.3). -/
def sbox : List Nat :=
[
  0x63, 0x7c, 0x77, 0x7b, 0xf2, 0x6b, 0x6f, 0xc5, 0x30, 0x01, 0x67, 0x2b, 0xfe, 0xd7, 0xab, 0x76,
  0xca, 0x82, 0xc9, 0x7d, 0xfa, 0x59, 0x47, 0xf0, 0xad, 0xd4, 0xa2, 0xaf, 0x9c, 0xa4, 0x72, 0xc0,
  0xb7, 0xfd, 0x93, 0x26, 0x36, 0x3f, 0xf7, 0xcc, 0x34, 0xa5, 0xe5, 0xf1, 0x71, 0xd8, 0x31, 0x15,
  0x04, 0xc7, 0x23, 0xc3, 0x18, 0x96, 0x05, 0x9a, 0x07, 0x12, 0x80, 0xe2, 0xeb, 0x27, 0xb2, 0x75,
  0x09, 0x83, 0x2c, 0x1a, 0x1b, 0x6e, 0x5a, 0xa0, 0x52, 0x3b, 0xd6, 0xb3, 0x29, 0xe3, 0x2f, 0x84,
  0x53, 0xd1, 0x00, 0xed, 0x20, 0xfc, 0xb1, 0x5b, 0x6a, 0xcb, 0xbe, 0x39, 0x4a, 0x4c, 0x58, 0xcf,
  0xd0, 0xef, 0xaa, 0xfb, 0x43, 0x4d, 0x33, 0x85, 0x45, 0xf9, 0x02, 0x7f, 0x50, 0x3c, 0x9f, 0xa8,
  0x51, 0xa3, 0x40, 0x8f, 0x92, 0x9d, 0x38, 0xf5, 0xbc, 0xb6, 0xda, 0x21, 0x10, 0xff, 0xf3, 0xd2,
  0xcd, 0x0c, 0x13, 0xec, 0x5f, 0x97, 0x44, 0x17, 0xc4, 0xa7, 0x7e, 0x3d, 0x64, 0x5d, 0x19, 0x73,
  0x60, 0x81, 0x4f, 0xdc, 0x22, 0x2a, 0x90, 0x88, 0x46, 0xee, 0xb8, 0x14, 0xde, 0x5e, 0x0b, 0xdb,
  0xe0, 0x32, 0x3a, 0x0a, 0x49, 0x06, 0x24, 0x5c, 0xc2, 0xd3, 0xac, 0x62, 0x91, 0x95, 0xe4, 0x79,
  0xe7, 0xc8, 0x37, 0x6d, 0x8d, 0xd5, 0x4e, 0xa9, 0x6c, 0x56, 0xf4, 0xea, 0x65, 0x7a, 0xae, 0x08,
  0xba, 0x78, 0x25, 0x2e, 0x1c, 0xa6, 0xb4, 0xc6, 0xe8, 0xdd, 0x74, 0x1f, 0x4b, 0xbd, 0x8b, 0x8a,
  0x70, 0x3e, 0xb5, 0x66, 0x48, 0x03, 0xf6, 0x0e, 0x61, 0x35, 0x57, 0xb9, 0x86, 0xc1, 0x1d, 0x9e,
  0xe1, 0xf8, 0x98, 0x11, 0x69, 0xd9, 0x8e, 0x94, 0x9b, 0x1e, 0x87, 0xe9, 0xce, 0x55, 0x28, 0xdf,
  0x8c, 0xa1, 0x89, 0x0d, 0xbf, 0xe6, 0x42, 0x68, 0x41, 0x99, 0x2d, 0x0f, 0xb0, 0x54, 0xbb, 0x16]

/-- Multiplication by `x` in GF(2^8) modulo `x^8 + x^4 + x^3 + x + 1`. -/
def xtime (b : Nat) : Nat := if b < 128 then 2 * b else (2 * b) ^^^ 0x11b

/-- S-box substitution of one byte. -/
def subByte (b : Nat) : Nat := sbox.getD b 0

/-- Rotate a 32-bit word left by one byte. -/
def rotWord (w : Nat) : Nat := ((w <<< 8) ||| (w >>> 24)) % 4294967296

/-- S-box substitution on each byte of a 32-bit word. -/
def subWord (w : Nat) : Nat :=
  (subByte ((w >>> 24) % 256) <<< 24) ||| (subByte ((w >>> 16) % 256) <<< 16)
    ||| (subByte ((w >>> 8) % 256) <<< 8) ||| subByte (w % 256)

/-- The AES round-constant words. -/
def rcon : List Nat :=
  [0x01000000, 0x02000000, 0x04000000, 0x08000000, 0x10000000,
   0x20000000, 0x40000000, 0x80000000, 0x1b000000, 0x36000000]

/-- Modelled from the spec: the AES key schedule (§4.3) — `Nk` words of
key material expanded to `4*(Nr+1)` round-key words, `Nr = Nk + 6`
(10/12/14 rounds for 128/192/256-bit keys). -/
def expandKey (key : List Nat) : List Nat :=
  let nk := key.length / 4
  let nr := nk + 6
  let init := (List.range nk).map fun i => bytesToNatBE ((key.drop (4 * i)).take 4)
  (List.range (4 * (nr + 1) - nk)).foldl
    (fun ws _ =>
      let j := ws.length
      let t := ws.getD (j - 1) 0
      let t :=
        if j % nk = 0 then subWord (rotWord t) ^^^ rcon.getD (j / nk - 1) 0
        else if 6 < nk ∧ j % nk = 4 then subWord t
        else t
      ws ++ [ws.getD (j - nk) 0 ^^^ t])
    init

/-- Byte `i` (column-major state order) of round key `r`. -/
def roundKeyByte (ws : List Nat) (r i : Nat) : Nat :=
  (ws.getD (4 * r + i / 4) 0 >>> (8 * (3 - i % 4))) % 256

/-- XOR the state with round key `r`. -/
def addRoundKey (s ws : List Nat) (r : Nat) : List Nat :=
  (List.range 16).map fun i => s.getD i 0 ^^^ roundKeyByte ws r i

/-- SubBytes: S-box substitution on each state byte. -/
def subBytes (s : List Nat) : List Nat :=
  (List.range 16).map fun i => subByte (s.getD i 0)

/-- ShiftRows: row `r` of the column-major state rotated left by `r`. -/
def shiftRows (s : List Nat) : List Nat :=
  (List.range 16).map fun i => s.getD (i % 4 + 4 * ((i / 4 + i % 4) % 4)) 0

/-- MixColumns: each column multiplied by the fixed polynomial
`3x^3 + x^2 + x + 2` over GF(2^8). -/
def mixColumns (s : List Nat) : List Nat :=
  (List.range 16).map fun i =>
    let a := fun j => s.getD (4 * (i / 4) + (i % 4 + j) % 4) 0
    xtime (a 0) ^^^ (xtime (a 1) ^^^ a 1) ^^^ a 2 ^^^ a 3

/-- Modelled from the spec: AES single-block encryption (§4.3) —
initial round-key addition, `Nr - 1` full rounds, final round without
MixColumns. -/
def encryptBlock (ws : List Nat) (nr : Nat) (block : List Nat) : List Nat :=
  let s0 := addRoundKey block ws 0
  let sN := (List.range (nr - 1)).foldl
    (fun s i => addRoundKey (mixColumns (shiftRows (subBytes s))) ws (i + 1)) s0
  addRoundKey (shiftRows (subBytes sN)) ws nr

/-- AES encryption of one block under `key` (16/24/32 bytes). -/
def aesEnc (key block : List Nat) : List Nat :=
  encryptBlock (expandKey key) (key.length / 4 + 6) block

/-- Modelled from the spec: multiplication in GF(2^128) as used by the
GHASH universal hash (§4.4); bits MSB-first, reduction by
`R = 0xe1 << 120`. -/
def gfMult (x y : Nat) : Nat :=
  ((List.range 128).foldl
    (fun zv i =>
      let z := if x.testBit (127 - i) then zv.1 ^^^ zv.2 else zv.1
      let v := if zv.2 % 2 = 1 then (zv.2 >>> 1) ^^^ (0xe1 <<< 120) else zv.2 >>> 1
      (z, v))
    (0, y)).1

/-- Fold `n` 16-byte blocks of `data` into the GHASH accumulator. -/
def ghashBlocks (h : Nat) : Nat → Nat → List Nat → Nat
  | acc, 0, _ => acc
  | acc, n + 1, data =>
      ghashBlocks h (gfMult (acc ^^^ bytesToNatBE (data.take 16)) h) n (data.drop 16)

/-- Zero padding to a 16-byte boundary. -/
def pad16 (bs : List Nat) : List Nat :=
  bs ++ List.replicate ((16 - bs.length % 16) % 16) 0

/-- Modelled from the spec: GHASH over the padded AAD, the padded
ciphertext and their bit lengths (§4.4). -/
def ghash (h : Nat) (aad ct : List Nat) : Nat :=
  let data := pad16 aad ++ pad16 ct
    ++ natToBytesBE 8 (8 * aad.length) ++ natToBytesBE 8 (8 * ct.length)
  ghashBlocks h 0 (data.length / 16) data

/-- The counter block `nonce ∥ ctr` for a 12-byte nonce; the
pre-counter block J0 is `counterBlock nonce 1`. -/
def counterBlock (nonce : List Nat) (ctr : Nat) : List Nat :=
  nonce ++ natToBytesBE 4 (ctr % 4294967296)

/-- `n` successive CTR keystream blocks starting at counter `ctr`. -/
def ctrBlocks (key nonce : List Nat) (ctr : Nat) : Nat → List Nat
  | 0 => []
  | n + 1 => aesEnc key (counterBlock nonce ctr) ++ ctrBlocks key nonce (ctr + 1) n

/-- Modelled from the spec: the per-message AES-CTR keystream (§4.4),
starting at counter 2 (`inc32` of J0), truncated to `len` bytes. -/
def keystream (key nonce : List Nat) (len : Nat) : List Nat :=
  (ctrBlocks key nonce 2 ((len + 15) / 16)).take len

/-- Modelled from the spec: the 16-byte authentication tag — GHASH
keyed by `H = AES_K(0^128)` over (AAD, ciphertext), masked with
`AES_K(J0)` (§4.4). -/
def gcmTag (key nonce aad ct : List Nat) : List Nat :=
  let h := bytesToNatBE (aesEnc key (List.replicate 16 0))
  natToBytesBE 16
    (ghash h aad ct ^^^ bytesToNatBE (aesEnc key (counterBlock nonce 1)))

/-- Modelled from the spec: `encrypt(key, nonce, plaintext, aad)` —
validate shapes, then AES-CTR encryption and tag computation, returning
`(ciphertext, tag)` (§4.4, §4.5, §6). -/
def encrypt (key nonce pt aad : List Nat) :
    Except CryptoError (List Nat × List Nat) :=
  if ¬(key.length = 16 ∨ key.length = 24 ∨ key.length = 32) then
    .error .invalidKeyLength
  else if nonce.length ≠ 12 then .error .invalidNonceLength
  else
    let ct := List.zipWith Nat.xor pt (keystream key nonce pt.length)
    .ok (ct, gcmTag key nonce aad ct)

/-- Modelled from the spec: `decrypt(key, nonce, ciphertext, tag, aad)`
— validate shapes, recompute the expected tag over (AAD, ciphertext),
compare in constant time, and release plaintext only on a match; on a
mismatch fail with `AuthenticationFailed` carrying no plaintext
(§4.4, §4.5, §7). -/
def decrypt (key nonce ct tag aad : List Nat) :
    Except CryptoError (List Nat) :=
  if ¬(key.length = 16 ∨ key.length = 24 ∨ key.length = 32) then
    .error .invalidKeyLength
  else if nonce.length ≠ 12 then .error .invalidNonceLength
  else if tag.length ≠ 16 then .error .invalidTagLength
  else if ctEq tag (gcmTag key nonce aad ct) then
    .ok (List.zipWith Nat.xor ct (keystream key nonce ct.length))
  else .error .authenticationFailed


/-! ## AES-GCM length, XOR and comparison lemmas -/

theorem natToBytesBE_length (len n : Nat) : (natToBytesBE len n).length = len := by
  simp [natToBytesBE]

theorem addRoundKey_length (s ws : List Nat) (r : Nat) :
    (addRoundKey s ws r).length = 16 := by
  simp [addRoundKey]

theorem aesEnc_length (key block : List Nat) :
    (aesEnc key block).length = 16 := by
  simp [aesEnc, encryptBlock, addRoundKey]

theorem ctrBlocks_length (key nonce : List Nat) (ctr n : Nat) :
    (ctrBlocks key nonce ctr n).length = 16 * n := by
  induction n generalizing ctr with
  | zero => rfl
  | succ n ih =>
      simp only [ctrBlocks, List.length_append, aesEnc_length, ih]
      omega

theorem keystream_length (key nonce : List Nat) (len : Nat) :
    (keystream key nonce len).length = len := by
  simp only [keystream, List.length_take, ctrBlocks_length]
  omega

theorem gcmTag_length (key nonce aad ct : List Nat) :
    (gcmTag key nonce aad ct).length = 16 := by
  simp [gcmTag, natToBytesBE_length]

theorem zipWith_xor_cancel (a : List Nat) :
    ∀ b : List Nat, a.length ≤ b.length →
      List.zipWith Nat.xor (List.zipWith Nat.xor a b) b = a := by
  induction a with
  | nil => intro b _; simp
  | cons x a ih =>
      intro b h
      cases b with
      | nil => simp at h
      | cons y b =>
          simp only [List.zipWith_cons_cons, List.length_cons] at h ⊢
          rw [show Nat.xor (Nat.xor x y) y = x from Nat.xor_cancel_right y x,
            ih b (by omega)]

theorem lor_eq_zero_iff (x y : Nat) : x ||| y = 0 ↔ x = 0 ∧ y = 0 := by
  constructor
  · intro h
    constructor <;>
    · apply Nat.eq_of_testBit_eq
      intro i
      have hb := congrArg (fun n => Nat.testBit n i) h
      simp only [Nat.testBit_lor, Nat.zero_testBit, Bool.or_eq_false_iff] at hb
      simp [hb.1, hb.2]
  · rintro ⟨rfl, rfl⟩
    rfl

theorem foldl_lor_eq_zero (l : List Nat) :
    ∀ acc, l.foldl Nat.lor acc = 0 ↔ acc = 0 ∧ ∀ x ∈ l, x = 0 := by
  induction l with
  | nil => simp
  | cons b l ih =>
      intro acc
      rw [List.foldl_cons, ih,
        show (Nat.lor acc b = 0 ↔ acc = 0 ∧ b = 0) from lor_eq_zero_iff acc b]
      constructor
      · rintro ⟨⟨h1, h2⟩, h3⟩
        refine ⟨h1, ?_⟩
        intro x hx
        rcases List.mem_cons.mp hx with rfl | hx
        · exact h2
        · exact h3 x hx
      · rintro ⟨h1, h2⟩
        exact ⟨⟨h1, h2 b (List.mem_cons_self b l)⟩,
          fun x hx => h2 x (List.mem_cons_of_mem b hx)⟩

theorem zipWith_xor_eq_of_zero (a : List Nat) :
    ∀ b : List Nat, a.length = b.length →
      (∀ x ∈ List.zipWith Nat.xor a b, x = 0) → a = b := by
  induction a with
  | nil =>
      intro b h _
      cases b with
      | nil => rfl
      | cons y b => simp at h
  | cons x a ih =>
      intro b h hz
      cases b with
      | nil => simp at h
      | cons y b =>
          simp only [List.zipWith_cons_cons, List.mem_cons] at hz
          have hxy : x = y := Nat.xor_eq_zero.mp (hz _ (Or.inl rfl))
          have hab : a = b := by
            apply ih b (by simpa using h)
            intro z hzz
            exact hz z (Or.inr hzz)
          rw [hxy, hab]

theorem mem_zipWith_xor_self (a : List Nat) :
    ∀ x ∈ List.zipWith Nat.xor a a, x = 0 := by
  induction a with
  | nil => simp
  | cons y a ih =>
      intro x hx
      rcases List.mem_cons.mp hx with rfl | hx
      · exact Nat.xor_self y
      · exact ih x hx

theorem ctEq_iff (a b : List Nat) : ctEq a b = true ↔ a = b := by
  unfold ctEq
  rw [Bool.and_eq_true, beq_iff_eq, beq_iff_eq, foldl_lor_eq_zero]
  constructor
  · rintro ⟨hlen, -, hz⟩
    exact zipWith_xor_eq_of_zero a b hlen hz
  · rintro rfl
    exact ⟨rfl, rfl, mem_zipWith_xor_self a⟩

end CryptoShim

namespace CryptoShim

/-- C1: `Initialize` registers exactly four entry points on the exports
object: the AES encryption function under "aesEncrypt", the AES
decryption function under "aesDecrypt", the SHA-256 hash function under
"sha256" and the diagnostic accessor under "getModuleInfo"; looking up
any other name gives exactly what the exports object held before. -/
theorem initialize_registers_exactly_four (exports : NapiObject) (k : String) :
    getProp (Initialize exports) k =
      if k = "aesEncrypt" then some (.func .aesEncrypt)
      else if k = "aesDecrypt" then some (.func .aesDecrypt)
      else if k = "sha256" then some (.func .sha256Hash)
      else if k = "getModuleInfo" then some (.func .getModuleInfo)
      else getProp exports k := by
  simp only [Initialize, getProp_setProp]
  by_cases h1 : k = "aesEncrypt" <;> by_cases h2 : k = "aesDecrypt" <;>
    by_cases h3 : k = "sha256" <;> by_cases h4 : k = "getModuleInfo" <;>
    simp_all

/-- C2: every call of `GetModuleInfo` returns an object with exactly the
seven string-valued fields `name`, `version`, `platform`, `arch`,
`buildDate`, `buildTime`, `symbolVisibility`, where the platform value
is one of win32/darwin/linux/unknown and the arch value is one of
x64/ia32/arm64/unknown. -/
theorem getModuleInfo_seven_fields (cfg : BuildConfig) (info : List NapiValue) :
    (GetModuleInfo cfg info).map Prod.fst =
      ["name", "version", "platform", "arch",
       "buildDate", "buildTime", "symbolVisibility"] ∧
    (∀ p ∈ GetModuleInfo cfg info, ∃ s, p.2 = NapiValue.str s) ∧
    getProp (GetModuleInfo cfg info) "platform"
      = some (.str (platformString cfg)) ∧
    platformString cfg ∈ ["win32", "darwin", "linux", "unknown"] ∧
    getProp (GetModuleInfo cfg info) "arch" = some (.str (archString cfg)) ∧
    archString cfg ∈ ["x64", "ia32", "arm64", "unknown"] := by
  refine ⟨rfl, ?_, rfl, platformString_mem cfg, rfl, archString_mem cfg⟩
  intro p hp
  rw [GetModuleInfo_eq] at hp
  simp only [List.mem_cons, List.not_mem_nil, or_false] at hp
  rcases hp with h | h | h | h | h | h | h <;> exact ⟨_, by rw [h]⟩

/-- C3: `GetModuleInfo` is pure and deterministic: it ignores its call
arguments and, for a fixed build configuration, returns identical
objects on every call (a pass-through of build-time constants, with no
effect on any other state in this embedding). -/
theorem getModuleInfo_pure (cfg : BuildConfig) (a b : List NapiValue) :
    GetModuleInfo cfg a = GetModuleInfo cfg b := rfl

/-- C8: `GetModuleInfo` always returns `name = "web3_crypto_native"` and
`version = "1.0.0"`, independent of platform, architecture and call
arguments. -/
theorem getModuleInfo_name_version (cfg : BuildConfig) (info : List NapiValue) :
    getProp (GetModuleInfo cfg info) "name"
      = some (.str "web3_crypto_native") ∧
    getProp (GetModuleInfo cfg info) "version" = some (.str "1.0.0") :=
  ⟨rfl, rfl⟩

/-- C9: `Initialize` returns the exports object it was passed, with
every property other than the four added keys left unchanged. -/
theorem initialize_frame (exports : NapiObject) (k : String)
    (h : k ∉ ["aesEncrypt", "aesDecrypt", "sha256", "getModuleInfo"]) :
    getProp (Initialize exports) k = getProp exports k := by
  simp only [List.mem_cons, List.not_mem_nil, or_false, not_or] at h
  obtain ⟨h1, h2, h3, h4⟩ := h
  simp [Initialize, getProp_setProp, h1, h2, h3, h4]

/-- Witness for C9 at a concrete exports object and key. -/
theorem initialize_frame_witness :
    getProp (Initialize [("foo", .ext 7)]) "foo"
      = getProp [("foo", .ext 7)] "foo" :=
  initialize_frame [("foo", .ext 7)] "foo" (by decide)

/-- C10: the `symbolVisibility` field is exactly "dllexport" on Windows
builds and exactly "default" on all other platforms. -/
theorem getModuleInfo_symbolVisibility (cfg : BuildConfig)
    (info : List NapiValue) :
    getProp (GetModuleInfo cfg info) "symbolVisibility"
      = some (.str (if cfg.win32 then "dllexport" else "default")) := rfl

/-- C6: one-shot hashing equals streaming hashing — for every byte
sequence and every way of splitting it into consecutive chunks, updating
a fresh stream with the chunks in order and finalizing yields the
one-shot digest; in particular every chunking of the same data yields
the same digest. -/
theorem streaming_eq_oneshot (data : List Nat) (chunks : List (List Nat))
    (hj : chunks.flatten = data) :
    finalize (List.foldl update newStream chunks) = hashOneShot data := by
  subst hj
  have h0 : newStream
      = ⟨(consume shaIV []).1, (consume shaIV []).2,
         ([] : List Nat).length⟩ := rfl
  rw [h0, foldl_update_eq]
  simp only [finalize, hashOneShot, List.nil_append, List.length_nil]
  rw [← consume_append]

/-- Witness for C6 at a concrete chunking of a concrete byte string. -/
theorem streaming_eq_oneshot_witness :
    ([[1, 2], [], [3, 4, 5]] : List (List Nat)).flatten = [1, 2, 3, 4, 5] ∧
    finalize (List.foldl update newStream [[1, 2], [], [3, 4, 5]])
      = hashOneShot [1, 2, 3, 4, 5] :=
  ⟨rfl, streaming_eq_oneshot [1, 2, 3, 4, 5] [[1, 2], [], [3, 4, 5]] rfl⟩


/-- C4: for every valid key, nonce, plaintext and associated data,
decrypting the (ciphertext, tag) pair produced by `encrypt` under the
same key, nonce and associated data returns the original plaintext. -/
theorem decrypt_encrypt_roundtrip (key nonce pt aad : List Nat)
    (hk : key.length = 16 ∨ key.length = 24 ∨ key.length = 32)
    (hn : nonce.length = 12) :
    ∃ ct tag, encrypt key nonce pt aad = .ok (ct, tag) ∧
      decrypt key nonce ct tag aad = .ok pt := by
  refine ⟨List.zipWith Nat.xor pt (keystream key nonce pt.length),
    gcmTag key nonce aad
      (List.zipWith Nat.xor pt (keystream key nonce pt.length)), ?_, ?_⟩
  · unfold encrypt
    rw [if_neg (not_not.mpr hk), if_neg (by simp [hn])]
  · unfold decrypt
    rw [if_neg (not_not.mpr hk), if_neg (by simp [hn]),
      if_neg (by simp [gcmTag_length]), if_pos ((ctEq_iff _ _).mpr rfl)]
    have hctlen :
        (List.zipWith Nat.xor pt (keystream key nonce pt.length)).length
          = pt.length := by
      rw [List.length_zipWith, keystream_length]
      omega
    rw [hctlen, zipWith_xor_cancel pt _ (by simp [keystream_length])]

/-- Witness for C4 at a concrete key, nonce, plaintext and AAD. -/
theorem decrypt_encrypt_roundtrip_witness :
    ∃ ct tag,
      encrypt (List.replicate 16 0) (List.replicate 12 0) [1, 2, 3] [9]
        = .ok (ct, tag) ∧
      decrypt (List.replicate 16 0) (List.replicate 12 0) ct tag [9]
        = .ok [1, 2, 3] :=
  decrypt_encrypt_roundtrip (List.replicate 16 0) (List.replicate 12 0)
    [1, 2, 3] [9] (Or.inl (by simp)) (by simp)

/-- C5: if the supplied tag does not match the tag recomputed over
(AAD, ciphertext), `decrypt` fails with `AuthenticationFailed` and
returns no decrypted plaintext; plaintext is returned only when the tag
matches. -/
theorem decrypt_tag_mismatch (key nonce ct tag aad : List Nat)
    (hk : key.length = 16 ∨ key.length = 24 ∨ key.length = 32)
    (hn : nonce.length = 12) (ht : tag.length = 16) :
    (tag ≠ gcmTag key nonce aad ct →
        decrypt key nonce ct tag aad = .error .authenticationFailed) ∧
    (∀ pt, decrypt key nonce ct tag aad = .ok pt →
        tag = gcmTag key nonce aad ct) := by
  unfold decrypt
  rw [if_neg (not_not.mpr hk), if_neg (by simp [hn]),
    if_neg (by simp [ht])]
  by_cases hmatch : tag = gcmTag key nonce aad ct
  · rw [if_pos ((ctEq_iff _ _).mpr hmatch)]
    exact ⟨fun hne => absurd hmatch hne, fun pt _ => hmatch⟩
  · rw [if_neg (fun hc => hmatch ((ctEq_iff _ _).mp hc))]
    refine ⟨fun _ => rfl, fun pt hok => ?_⟩
    simp at hok

set_option maxRecDepth 10000 in
/-- Witness for C5: under the all-zero 128-bit key and nonce, the
all-zero tag does not authenticate the ciphertext `[7]`, and decrypt
reports `AuthenticationFailed`. -/
theorem decrypt_tag_mismatch_witness :
    decrypt (List.replicate 16 0) (List.replicate 12 0) [7]
      (List.replicate 16 0) [] = .error .authenticationFailed :=
  (decrypt_tag_mismatch (List.replicate 16 0) (List.replicate 12 0) [7]
    (List.replicate 16 0) [] (Or.inl (by simp)) (by simp) (by simp)).1
    (by decide)

set_option maxRecDepth 10000 in
/-- C7: `sha256` of the empty byte sequence is the well-known 32-byte
constant whose hex encoding is
e3b0c44298fc1c149afbf4c8996fb92427ae41e4649b934ca495991b7852b855. -/
theorem sha256_empty :
    sha256 [] =
      [0xe3, 0xb0, 0xc4, 0x42, 0x98, 0xfc, 0x1c, 0x14,
       0x9a, 0xfb, 0xf4, 0xc8, 0x99, 0x6f, 0xb9, 0x24,
       0x27, 0xae, 0x41, 0xe4, 0x64, 0x9b, 0x93, 0x4c,
       0xa4, 0x95, 0x99, 0x1b, 0x78, 0x52, 0xb8, 0x55] := by
  decide

end CryptoShim
